import Mathlib

/-!
Shallow embedding of the pain-index backend core (src/main.py together with the
provider adapters' outcome shapes from src/providers.py).

Python dicts are modelled as structures whose fields are `Option`-valued (`none`
models an absent key); Python floats are modelled as exact rationals; a Python
function that can raise models as `Except`.  Provider adapters catch their own
network errors and return an empty list (providers.py lines 105-107 and
163-165), so a provider call is modelled by the list it hands back to the chain
together with an outcome tag recording whether it failed.
-/

namespace PainIndex

/-- Quote dictionary (the value stored under a raw record's `quote_usd` key).
Every field is optional, matching `dict.get` with a default. -/
structure QuoteDict where
  price : Option ℚ := none
  percentChange24h : Option ℚ := none
  percentChange7d : Option ℚ := none
  percentChange30d : Option ℚ := none
deriving DecidableEq, Repr

/-- Raw provider record: the loosely-typed dict a provider yields.  `none`
models an absent key.  The fields cover every key the assembler reads plus the
top-level `price` and `percent_from_ath` keys the fallback scraper produces
(providers.py lines 151-159). -/
structure RawRecord where
  name : Option String := none
  symbol : Option String := none
  logo_url : Option String := none
  quote_usd : Option QuoteDict := none
  price : Option ℚ := none
  percent_from_ath : Option ℚ := none
deriving DecidableEq, Repr

/-- The canonical `Asset` pydantic model (main.py lines 12-20). -/
structure Asset where
  rank : ℕ
  id : String
  name : String
  symbol : String
  price : ℚ
  percent_from_ath : ℚ
  pain_score : ℤ
  logo_url : String
deriving DecidableEq, Repr

/-- Pain of a single period: `abs(change) if change < 0 else 0`
(main.py lines 45-47). -/
def painOf (change : ℚ) : ℚ := if change < 0 then |change| else 0

/-- Raw score before truncation (main.py lines 51-59): the weighted pain
average times the 2.5 multiplier, then the two sequential panic-bonus
increments (`+= 15` when the daily pain exceeds 10, `+= 10` when it also
exceeds 20); the sequential increments sum. -/
def rawFromPains (pain_24h pain_7d pain_30d : ℚ) : ℚ :=
  (pain_24h * 0.50 + pain_7d * 0.30 + pain_30d * 0.20) * 2.5
    + (if pain_24h > 10 then 15 else 0)
    + (if pain_24h > 20 then 10 else 0)

/-- Raw score of a quote dict: changes default to 0 when absent
(main.py lines 35-37). -/
def raw_score (quote : QuoteDict) : ℚ :=
  rawFromPains (painOf (quote.percentChange24h.getD 0))
    (painOf (quote.percentChange7d.getD 0))
    (painOf (quote.percentChange30d.getD 0))

/-- Python `int()` applied to a float: truncation toward zero. -/
def pyInt (q : ℚ) : ℤ := if q < 0 then -⌊-q⌋ else ⌊q⌋

/-- `calculate_pain_score` (main.py lines 29-64): truncate the raw score and
clamp it to at most 100. -/
def calculate_pain_score (quote : QuoteDict) : ℤ :=
  min (pyInt (raw_score quote)) 100

/-- The exception a direct dict subscript raises on a missing key. -/
inductive AssembleError where
  | keyError (key : String)
deriving DecidableEq, Repr

/-- Direct subscript `d[key]`: the value when the key is present, KeyError
otherwise. -/
def getKey {α : Type} (v : Option α) (key : String) : Except AssembleError α :=
  match v with
  | some x => Except.ok x
  | none => Except.error (AssembleError.keyError key)

/-- Python `str.lower()`: per-character lowercasing, written over the
character list. -/
def pyLower (s : String) : String := ⟨s.data.map Char.toLower⟩

/-- Python `name.lower().replace(' ', '-')`; a single-character replace is a
character map. -/
def slugify (name : String) : String :=
  ⟨(pyLower name).data.map (fun c => if c = ' ' then '-' else c)⟩

/-- One iteration of the refresh loop body (main.py lines 89-104).  Direct
subscripts are evaluated in source order — `name` and `symbol` inside the id
f-string, then `logo_url` — and the first missing key raises; the `quote_usd`
lookup uses `.get` with an empty-dict default, as do the price and change
lookups inside it. -/
def assemble (coin_item : RawRecord) : Except AssembleError Asset :=
  let quote_data := coin_item.quote_usd.getD {}
  match getKey coin_item.name "name" with
  | Except.error e => Except.error e
  | Except.ok name =>
    match getKey coin_item.symbol "symbol" with
    | Except.error e => Except.error e
    | Except.ok symbol =>
      match getKey coin_item.logo_url "logo_url" with
      | Except.error e => Except.error e
      | Except.ok logo_url =>
        Except.ok
          { rank := 0
            id := slugify name ++ "-" ++ pyLower symbol
            name := name
            symbol := symbol
            price := quote_data.price.getD 0
            percent_from_ath := quote_data.percentChange24h.getD 0
            pain_score := calculate_pain_score quote_data
            logo_url := logo_url }

/-- The refresh loop over the raw records (main.py lines 88-104): records are
assembled in order and the first uncaught exception aborts the whole batch. -/
def assembleAll : List RawRecord → Except AssembleError (List Asset)
  | [] => Except.ok []
  | r :: rest =>
    match assemble r with
    | Except.error e => Except.error e
    | Except.ok a =>
      match assembleAll rest with
      | Except.error e => Except.error e
      | Except.ok as => Except.ok (a :: as)

/-- Comparator realising Python's stable `sorted(key=pain_score, reverse=True)`
(main.py line 107): `a` may stay before `b` exactly when `a`'s score is at
least `b`'s. -/
def painGe (a b : Asset) : Bool := b.pain_score ≤ a.pain_score

/-- The enumerate loop (main.py lines 110-111) writing `rank = i + 1`. -/
def assignRanks : ℕ → List Asset → List Asset
  | _, [] => []
  | i, a :: rest => { a with rank := i } :: assignRanks (i + 1) rest

/-- Sort by descending pain score (stably) and assign 1-based ranks
(main.py lines 107-111). -/
def rankAssets (assets_list : List Asset) : List Asset :=
  assignRanks 1 (assets_list.mergeSort painGe)

/-- Outcome of one provider adapter call.  `failure` covers a network error,
timeout or non-success status, which the adapter catches and converts into an
empty list before the chain sees it. -/
inductive ProviderOutcome where
  | ok (records : List RawRecord)
  | failure
deriving DecidableEq, Repr

/-- The list a provider call hands to the fallback loop. -/
def runProvider : ProviderOutcome → List RawRecord
  | ProviderOutcome.ok records => records
  | ProviderOutcome.failure => []

/-- The fallback loop of main.py lines 77-81: `raw_data` holds the most recent
provider result and the loop breaks at the first truthy (non-empty) one. -/
def chainFetch : List (List RawRecord) → List RawRecord
  | [] => []
  | r :: rest => if r.isEmpty then chainFetch rest else r

/-- Number of provider functions the fallback loop invokes. -/
def chainCalls : List (List RawRecord) → ℕ
  | [] => 0
  | r :: rest => if r.isEmpty then 1 + chainCalls rest else 1

/-- `get_data_from_providers` (main.py lines 67-113), as a function of the
outcomes of the providers in priority order. -/
def get_data_from_providers (outcomes : List ProviderOutcome) :
    Except AssembleError (List Asset) :=
  let raw_data := chainFetch (outcomes.map runProvider)
  if raw_data.isEmpty then Except.ok []
  else
    match assembleAll raw_data with
    | Except.ok assets_list => Except.ok (rankAssets assets_list)
    | Except.error e => Except.error e

/-- The module-level cache globals (main.py lines 24-26): `cached_data` starts
as `None` and `last_cache_time` as 0. -/
structure CacheState where
  cached_data : Option (List Asset)
  last_cache_time : ℚ
deriving DecidableEq, Repr

/-- Cache state at process start. -/
def initialCacheState : CacheState := ⟨none, 0⟩

/-- `CACHE_DURATION_SECONDS = 60 * 15` (main.py line 26). -/
def CACHE_DURATION_SECONDS : ℚ := 60 * 15

/-- Python truthiness test `not cached_data`: true when the cache is `None`
and also when it holds an empty list. -/
def cacheFalsy : Option (List Asset) → Bool
  | none => true
  | some l => l.isEmpty

/-- `get_leaderboard` (main.py lines 131-142).  Returns the response, the new
cache state, and the number of outbound provider invocations this call made.
When assembly raises, the exception escapes before the globals are assigned,
so the cache state is unchanged. -/
def get_leaderboard (outcomes : List ProviderOutcome) (current_time : ℚ)
    (s : CacheState) : Except AssembleError (List Asset) × CacheState × ℕ :=
  if cacheFalsy s.cached_data
      ∨ current_time - s.last_cache_time > CACHE_DURATION_SECONDS then
    match get_data_from_providers outcomes with
    | Except.ok assets =>
        (Except.ok assets, ⟨some assets, current_time⟩,
          chainCalls (outcomes.map runProvider))
    | Except.error e =>
        (Except.error e, s, chainCalls (outcomes.map runProvider))
  else
    (Except.ok (s.cached_data.getD []), s, 0)

/-- Erase the rank field (used to compare ranked assets with their pre-ranking
originals). -/
def clearRank (a : Asset) : Asset := { a with rank := 0 }

/-! Score lemmas -/

theorem painOf_nonneg (c : ℚ) : 0 ≤ painOf c := by
  unfold painOf
  split
  · exact abs_nonneg c
  · exact le_refl 0

theorem painOf_antitone {c c' : ℚ} (h : c' ≤ c) : painOf c ≤ painOf c' := by
  unfold painOf
  split_ifs with h1 h2 h2
  · rw [abs_of_neg h1, abs_of_neg h2]
    linarith
  · exact absurd (lt_of_le_of_lt h h1) h2
  · exact abs_nonneg c'
  · exact le_refl 0

theorem bonusMono {t b p p' : ℚ} (hb : 0 ≤ b) (h : p ≤ p') :
    (if p > t then b else 0) ≤ (if p' > t then b else 0) := by
  split_ifs with h1 h2 h2
  · exact le_refl b
  · exact absurd (lt_of_lt_of_le h1 h) h2
  · exact hb
  · exact le_refl 0

theorem rawFromPains_nonneg {p q r : ℚ} (h1 : 0 ≤ p) (h2 : 0 ≤ q) (h3 : 0 ≤ r) :
    0 ≤ rawFromPains p q r := by
  unfold rawFromPains
  split_ifs <;> nlinarith

theorem rawFromPains_mono_24 {p p' q r : ℚ} (h : p ≤ p') :
    rawFromPains p q r ≤ rawFromPains p' q r := by
  have b1 := @bonusMono 10 15 p p' (by norm_num) h
  have b2 := @bonusMono 20 10 p p' (by norm_num) h
  unfold rawFromPains
  nlinarith [b1, b2]

theorem rawFromPains_mono_7 {p q q' r : ℚ} (h : q ≤ q') :
    rawFromPains p q r ≤ rawFromPains p q' r := by
  unfold rawFromPains
  split_ifs <;> nlinarith

theorem rawFromPains_mono_30 {p q r r' : ℚ} (h : r ≤ r') :
    rawFromPains p q r ≤ rawFromPains p q r' := by
  unfold rawFromPains
  split_ifs <;> nlinarith

theorem pyInt_eq_floor {q : ℚ} (h : 0 ≤ q) : pyInt q = ⌊q⌋ := by
  unfold pyInt
  rw [if_neg (not_lt.mpr h)]

theorem score_from_raw_mono {x y : ℚ} (hx : 0 ≤ x) (h : x ≤ y) :
    min (pyInt x) 100 ≤ min (pyInt y) 100 := by
  rw [pyInt_eq_floor hx, pyInt_eq_floor (le_trans hx h)]
  exact min_le_min (Int.floor_le_floor h) (le_refl 100)

theorem raw_score_nonneg (quote : QuoteDict) : 0 ≤ raw_score quote :=
  rawFromPains_nonneg (painOf_nonneg _) (painOf_nonneg _) (painOf_nonneg _)

/-- C7: for every quote the final score is the floored raw score clamped to at
most 100; the raw score is never negative (all pain inputs are nonnegative),
so the result lies in [0, 100] with no lower clamp needed. -/
theorem pain_score_bounds (quote : QuoteDict) :
    0 ≤ raw_score quote
    ∧ calculate_pain_score quote = min ⌊raw_score quote⌋ 100
    ∧ 0 ≤ calculate_pain_score quote
    ∧ calculate_pain_score quote ≤ 100 := by
  have h0 := raw_score_nonneg quote
  refine ⟨h0, ?_, ?_, min_le_right _ _⟩
  · unfold calculate_pain_score
    rw [pyInt_eq_floor h0]
  · unfold calculate_pain_score
    rw [pyInt_eq_floor h0]
    exact le_min (Int.floor_nonneg.mpr h0) (by norm_num)

/-- C8: the pain score is monotonically non-decreasing as any single period's
change decreases — in particular as the magnitude of a negative change grows —
the other two periods held fixed. -/
theorem pain_score_monotone (quote : QuoteDict) (c c' : ℚ) (h : c' ≤ c) :
    (calculate_pain_score { quote with percentChange24h := some c }
        ≤ calculate_pain_score { quote with percentChange24h := some c' })
    ∧ (calculate_pain_score { quote with percentChange7d := some c }
        ≤ calculate_pain_score { quote with percentChange7d := some c' })
    ∧ (calculate_pain_score { quote with percentChange30d := some c }
        ≤ calculate_pain_score { quote with percentChange30d := some c' }) := by
  have hp := painOf_antitone h
  refine ⟨?_, ?_, ?_⟩
  · exact score_from_raw_mono (raw_score_nonneg _) (rawFromPains_mono_24 hp)
  · exact score_from_raw_mono (raw_score_nonneg _) (rawFromPains_mono_7 hp)
  · exact score_from_raw_mono (raw_score_nonneg _) (rawFromPains_mono_30 hp)

/-- Witness for C8 at a concrete quote: deepening the daily decline from -5%
to -10% does not decrease the score. -/
theorem pain_score_monotone_witness :
    calculate_pain_score { percentChange24h := some (-5) }
      ≤ calculate_pain_score { percentChange24h := some (-10) } :=
  (pain_score_monotone {} (-5) (-10) (by norm_num)).1

/-- C9: a lone -15% daily change gives raw score 18.75 + 15 = 33.75, floored
to 33; a lone -25% daily change gives raw score 31.25 + 15 + 10 = 56.25,
floored to 56 — the two bonuses are additive and cumulative. -/
theorem pain_score_examples :
    raw_score { percentChange24h := some (-15) } = 33.75
    ∧ calculate_pain_score { percentChange24h := some (-15) } = 33
    ∧ raw_score { percentChange24h := some (-25) } = 56.25
    ∧ calculate_pain_score { percentChange24h := some (-25) } = 56 := by
  refine ⟨?_, ?_, ?_, ?_⟩ <;>
    norm_num [calculate_pain_score, raw_score, rawFromPains, painOf, pyInt, abs]

/-! Provider chain -/

/-- C5: over every ordered list of provider outcomes the chain returns the
first non-empty provider result, and the empty list when no provider produced
records; a provider that failed contributes the same empty list as one that
succeeded with zero records, so the two are skipped identically. -/
theorem chain_first_nonempty (outcomes : List ProviderOutcome) :
    chainFetch (outcomes.map runProvider)
      = ((outcomes.map runProvider).find? (fun r => !r.isEmpty)).getD []
    ∧ (∀ rest : List (List RawRecord),
        chainFetch (runProvider ProviderOutcome.failure :: rest) = chainFetch rest)
    ∧ (∀ rest : List (List RawRecord),
        chainFetch (runProvider (ProviderOutcome.ok []) :: rest) = chainFetch rest) := by
  refine ⟨?_, fun rest => rfl, fun rest => rfl⟩
  generalize outcomes.map runProvider = rs
  induction rs with
  | nil => rfl
  | cons r rest ih =>
    cases hr : r.isEmpty with
    | true => simpa [chainFetch, List.find?_cons, hr] using ih
    | false => simp [chainFetch, List.find?_cons, hr]

/-! Assembly lemmas -/

theorem assemble_ok_of_keys (r : RawRecord) (n s u : String)
    (hn : r.name = some n) (hs : r.symbol = some s) (hu : r.logo_url = some u) :
    assemble r = Except.ok
      { rank := 0
        id := slugify n ++ "-" ++ pyLower s
        name := n
        symbol := s
        price := (r.quote_usd.getD {}).price.getD 0
        percent_from_ath := (r.quote_usd.getD {}).percentChange24h.getD 0
        pain_score := calculate_pain_score (r.quote_usd.getD {})
        logo_url := u } := by
  unfold assemble getKey
  rw [hn, hs, hu]

theorem assemble_error_of_missing (r : RawRecord)
    (h : r.name = none ∨ r.symbol = none) :
    ∃ e, assemble r = Except.error e := by
  unfold assemble getKey
  rcases h with h | h
  · rw [h]
    exact ⟨AssembleError.keyError "name", rfl⟩
  · cases hn : r.name with
    | none => exact ⟨AssembleError.keyError "name", rfl⟩
    | some n =>
      rw [h]
      exact ⟨AssembleError.keyError "symbol", rfl⟩

theorem assemble_error_of_missing_logo (r : RawRecord) (n s : String)
    (hn : r.name = some n) (hs : r.symbol = some s) (hu : r.logo_url = none) :
    assemble r = Except.error (AssembleError.keyError "logo_url") := by
  unfold assemble getKey
  rw [hn, hs, hu]

theorem assemble_ok_inv {r : RawRecord} {a : Asset} (h : assemble r = Except.ok a) :
    ∃ n s u, r.name = some n ∧ r.symbol = some s ∧ r.logo_url = some u := by
  cases hn : r.name with
  | none =>
    rcases assemble_error_of_missing r (Or.inl hn) with ⟨e, he⟩
    rw [he] at h
    cases h
  | some n =>
    cases hs : r.symbol with
    | none =>
      rcases assemble_error_of_missing r (Or.inr hs) with ⟨e, he⟩
      rw [he] at h
      cases h
    | some s =>
      cases hu : r.logo_url with
      | none =>
        rw [assemble_error_of_missing_logo r n s hn hs hu] at h
        cases h
      | some u => exact ⟨n, s, u, rfl, rfl, rfl⟩

theorem assembleAll_error_of_mem {records : List RawRecord} {r : RawRecord}
    (hr : r ∈ records) (h : ∃ e, assemble r = Except.error e) :
    ∃ e, assembleAll records = Except.error e := by
  induction records with
  | nil => cases hr
  | cons a rest ih =>
    cases hm : assemble a with
    | error e => exact ⟨e, by simp [assembleAll, hm]⟩
    | ok x =>
      rcases List.mem_cons.mp hr with rfl | hr'
      · rcases h with ⟨e, he⟩
        rw [hm] at he
        cases he
      · rcases ih hr' with ⟨e, he⟩
        exact ⟨e, by simp [assembleAll, hm, he]⟩

theorem calculate_pain_score_empty : calculate_pain_score {} = 0 := by
  norm_num [calculate_pain_score, raw_score, rawFromPains, painOf, pyInt]

/-- C2 (amended): a raw record whose name or symbol key is absent makes the
whole refresh batch fail — the KeyError propagates out of the loop and no
record is skipped — while a record whose identity keys are present, even as
empty strings, is assembled without error. -/
theorem malformed_record_aborts_batch {records : List RawRecord} {r : RawRecord}
    (hr : r ∈ records) (hmiss : r.name = none ∨ r.symbol = none) :
    (∃ e, assembleAll records = Except.error e)
    ∧ ∀ u : String, ∃ a,
        assemble { name := some "", symbol := some "", logo_url := some u } = Except.ok a
        ∧ a.name = "" ∧ a.symbol = "" := by
  constructor
  · exact assembleAll_error_of_mem hr (assemble_error_of_missing r hmiss)
  · intro u
    exact ⟨_, assemble_ok_of_keys _ "" "" u rfl rfl rfl, rfl, rfl⟩

/-- Record missing its symbol key, as the fallback scraper could yield after a
partial parse. -/
def w2bad : RawRecord := { name := some "Mystery", logo_url := some "u" }

/-- Well-formed record used alongside the malformed one. -/
def c2good : RawRecord :=
  { name := some "Bitcoin", symbol := some "BTC", logo_url := some "b" }

/-- Witness for C2 (amended) at a concrete one-record batch. -/
theorem malformed_record_aborts_batch_witness :
    (∃ e, assembleAll [w2bad] = Except.error e)
    ∧ ∀ u : String, ∃ a,
        assemble { name := some "", symbol := some "", logo_url := some u } = Except.ok a
        ∧ a.name = "" ∧ a.symbol = "" :=
  malformed_record_aborts_batch (List.mem_singleton.mpr rfl) (Or.inr rfl)

/-- C2 counterexample: a refresh whose batch holds a well-formed record and a
record lacking a symbol does not skip the bad record — the whole batch fails
with a KeyError, so not even the well-formed record is returned. -/
theorem malformed_record_counterexample :
    get_data_from_providers [ProviderOutcome.ok [c2good, w2bad]]
      = Except.error (AssembleError.keyError "symbol") := by
  rfl

/-- C10: a record in the fallback scraper's shape — name, symbol and logo
present, no quote_usd key — assembles successfully into an asset carrying
price 0, percent_from_ath 0 and pain score 0, whatever top-level price or
percent_from_ath values the record has. -/
theorem assemble_fallback_shape (r : RawRecord) (n s u : String)
    (hn : r.name = some n) (hs : r.symbol = some s) (hu : r.logo_url = some u)
    (hq : r.quote_usd = none) :
    assemble r = Except.ok
      { rank := 0
        id := slugify n ++ "-" ++ pyLower s
        name := n
        symbol := s
        price := 0
        percent_from_ath := 0
        pain_score := 0
        logo_url := u } := by
  rw [assemble_ok_of_keys r n s u hn hs hu, hq]
  simp [Option.getD, calculate_pain_score_empty]

/-- Record shaped exactly like the fallback scraper's output, with top-level
price and percent_from_ath values that the assembler never reads. -/
def w10rec : RawRecord :=
  { name := some "Pepe Coin", symbol := some "PEPE", logo_url := some "logo",
    price := some 123, percent_from_ath := some (-40) }

/-- Witness for C10 at a concrete fallback-shaped record. -/
theorem assemble_fallback_shape_witness :
    assemble w10rec = Except.ok
      { rank := 0, id := "pepe-coin-pepe", name := "Pepe Coin", symbol := "PEPE",
        price := 0, percent_from_ath := 0, pain_score := 0, logo_url := "logo" } := by
  rw [assemble_fallback_shape w10rec "Pepe Coin" "PEPE" "logo" rfl rfl rfl rfl]
  congr 1

/-! Fallback provider behaviour -/

/-- Pipeline evaluation when the chain yields exactly one record. -/
theorem get_data_chain_single (outcomes : List ProviderOutcome) (r : RawRecord)
    (a : Asset) (hc : chainFetch (outcomes.map runProvider) = [r])
    (ha : assemble r = Except.ok a) :
    get_data_from_providers outcomes = Except.ok [{ a with rank := 1 }] := by
  unfold get_data_from_providers
  rw [hc]
  simp [assembleAll, ha, rankAssets, List.mergeSort_singleton, assignRanks]

/-- The assembled form of the fallback-shaped record `w10rec`. -/
def w10asset : Asset :=
  { rank := 0, id := "pepe-coin-pepe", name := "Pepe Coin", symbol := "PEPE",
    price := 0, percent_from_ath := 0, pain_score := 0, logo_url := "logo" }

theorem assemble_w10 : assemble w10rec = Except.ok w10asset := by
  rw [assemble_ok_of_keys w10rec "Pepe Coin" "PEPE" "logo" rfl rfl rfl]
  rw [show w10rec.quote_usd = none from rfl]
  simp [Option.getD, calculate_pain_score_empty, w10asset]
  decide

/-- C3 (amended): with the primary empty and the secondary non-empty, the
result equals running the pipeline on the secondary's records exclusively;
but the secondary's records are not mapped into the Quote shape — they carry
top-level price and change keys and no quote_usd — so every asset assembled
from such a record gets price 0, percent_from_ath 0 and pain score 0 rather
than the record's reported price. -/
theorem fallback_uses_secondary (rs : List RawRecord) (_hne : rs ≠ []) :
    get_data_from_providers [ProviderOutcome.ok [], ProviderOutcome.ok rs]
      = get_data_from_providers [ProviderOutcome.ok rs]
    ∧ ∀ r a, r.quote_usd = none → assemble r = Except.ok a →
        a.price = 0 ∧ a.percent_from_ath = 0 ∧ a.pain_score = 0 := by
  constructor
  · have hc : chainFetch ([ProviderOutcome.ok [], ProviderOutcome.ok rs].map runProvider)
        = chainFetch ([ProviderOutcome.ok rs].map runProvider) := by
      simp [runProvider, chainFetch]
    unfold get_data_from_providers
    rw [hc]
  · intro r a hq ha
    rcases assemble_ok_inv ha with ⟨n, s, u, hn, hs, hu⟩
    rw [assemble_ok_of_keys r n s u hn hs hu, hq] at ha
    cases ha
    exact ⟨rfl, rfl, calculate_pain_score_empty⟩

/-- Witness for C3 (amended) with a concrete one-record secondary. -/
theorem fallback_uses_secondary_witness :
    (get_data_from_providers [ProviderOutcome.ok [], ProviderOutcome.ok [w10rec]]
      = get_data_from_providers [ProviderOutcome.ok [w10rec]])
    ∧ ∀ r a, r.quote_usd = none → assemble r = Except.ok a →
        a.price = 0 ∧ a.percent_from_ath = 0 ∧ a.pain_score = 0 :=
  fallback_uses_secondary [w10rec] (by simp)

/-- C3 counterexample: primary empty, secondary one record reporting price
123 — the resulting leaderboard's sole asset carries price 0, not the
record's reported price. -/
theorem fallback_price_counterexample :
    ∃ a, get_data_from_providers [ProviderOutcome.ok [], ProviderOutcome.ok [w10rec]]
        = Except.ok [a]
      ∧ w10rec.price = some 123 ∧ a.price = 0 ∧ ¬ ((123 : ℚ) = 0) := by
  refine ⟨{ w10asset with rank := 1 }, ?_, rfl, rfl, by norm_num⟩
  exact get_data_chain_single _ w10rec w10asset rfl assemble_w10

/-! Ranking invariants -/

theorem painGe_trans : ∀ a b c : Asset,
    painGe a b = true → painGe b c = true → painGe a c = true := by
  intro a b c hab hbc
  simp [painGe] at *
  omega

theorem painGe_total : ∀ a b : Asset, (painGe a b || painGe b a) = true := by
  intro a b
  simp [painGe]
  omega

theorem assignRanks_length : ∀ (n : ℕ) (l : List Asset),
    (assignRanks n l).length = l.length := by
  intro n l
  induction l generalizing n with
  | nil => rfl
  | cons a rest ih => simp [assignRanks, ih]

theorem assignRanks_map_rank : ∀ (n : ℕ) (l : List Asset),
    (assignRanks n l).map Asset.rank = List.range' n l.length := by
  intro n l
  induction l generalizing n with
  | nil => rfl
  | cons a rest ih => simp [assignRanks, List.range'_succ, ih]

theorem assignRanks_map_pain : ∀ (n : ℕ) (l : List Asset),
    (assignRanks n l).map Asset.pain_score = l.map Asset.pain_score := by
  intro n l
  induction l generalizing n with
  | nil => rfl
  | cons a rest ih => simp [assignRanks, ih]

theorem assignRanks_map_clearRank : ∀ (n : ℕ) (l : List Asset),
    (assignRanks n l).map clearRank = l.map clearRank := by
  intro n l
  induction l generalizing n with
  | nil => rfl
  | cons a rest ih => simp [assignRanks, clearRank, ih]

theorem filter_pain_map_clearRank (out : List Asset) (k : ℤ) :
    (out.filter (fun a => decide (a.pain_score = k))).map clearRank
      = (out.map clearRank).filter (fun a => decide (a.pain_score = k)) := by
  induction out with
  | nil => rfl
  | cons a rest ih => by_cases h : a.pain_score = k <;> simp [clearRank, h, ih]

/-- Stability of the descending-score sort: filtering at any one score value
commutes with the sort, i.e. equal-score assets keep their input order. -/
theorem mergeSort_filter_pain (l : List Asset) (k : ℤ) :
    (l.mergeSort painGe).filter (fun a => decide (a.pain_score = k))
      = l.filter (fun a => decide (a.pain_score = k)) := by
  have hsub : (l.filter (fun a => decide (a.pain_score = k))).Sublist
      (l.mergeSort painGe) := by
    apply List.sublist_mergeSort painGe_trans painGe_total
    · apply List.pairwise_of_forall_mem_list
      intro a ha b hb
      have ha' := List.of_mem_filter ha
      have hb' := List.of_mem_filter hb
      simp at ha' hb'
      simp [painGe, ha', hb']
    · exact List.filter_sublist l
  have hself : ((l.filter (fun a => decide (a.pain_score = k))).filter
      (fun a => decide (a.pain_score = k)))
      = l.filter (fun a => decide (a.pain_score = k)) := by
    apply List.filter_eq_self.mpr
    intro a ha
    exact (List.mem_filter.mp ha).2
  have hsub2 : (l.filter (fun a => decide (a.pain_score = k))).Sublist
      ((l.mergeSort painGe).filter (fun a => decide (a.pain_score = k))) := by
    have h := List.Sublist.filter (fun a => decide (a.pain_score = k)) hsub
    rwa [hself] at h
  have hlen : ((l.mergeSort painGe).filter (fun a => decide (a.pain_score = k))).length
      = (l.filter (fun a => decide (a.pain_score = k))).length := by
    rw [← List.countP_eq_length_filter, ← List.countP_eq_length_filter]
    exact List.Perm.countP_eq _ (List.mergeSort_perm l painGe)
  exact (hsub2.eq_of_length hlen.symm).symm

theorem rankAssets_pairwise (l : List Asset) :
    (rankAssets l).Pairwise (fun a b => b.pain_score ≤ a.pain_score) := by
  have hs := List.sorted_mergeSort painGe_trans painGe_total l
  have hs' : (l.mergeSort painGe).Pairwise (fun a b => b.pain_score ≤ a.pain_score) :=
    hs.imp (fun h => by simpa [painGe] using h)
  have hm : ((assignRanks 1 (l.mergeSort painGe)).map Asset.pain_score).Pairwise
      (fun x y => y ≤ x) := by
    rw [assignRanks_map_pain]
    exact (List.pairwise_map).mpr hs'
  exact List.pairwise_map.mp hm

theorem assemble_rank_zero {r : RawRecord} {a : Asset}
    (h : assemble r = Except.ok a) : a.rank = 0 := by
  rcases assemble_ok_inv h with ⟨n, s, u, hn, hs, hu⟩
  rw [assemble_ok_of_keys r n s u hn hs hu] at h
  cases h
  rfl

theorem assembleAll_rank_zero : ∀ {records : List RawRecord} {l : List Asset},
    assembleAll records = Except.ok l → ∀ a ∈ l, a.rank = 0 := by
  intro records
  induction records with
  | nil =>
    intro l h a ha
    cases h
    cases ha
  | cons r rest ih =>
    intro l h a ha
    cases hr : assemble r with
    | error e => simp [assembleAll, hr] at h
    | ok a0 =>
      cases hrest : assembleAll rest with
      | error e => simp [assembleAll, hr, hrest] at h
      | ok as =>
        simp only [assembleAll, hr, hrest] at h
        cases h
        rcases List.mem_cons.mp ha with rfl | ha'
        · exact assemble_rank_zero hr
        · exact ih hrest a ha'

/-- C6: every non-empty refresh output has ranks exactly 1..N in order, is
sorted by non-increasing pain score, and assets of equal pain score keep
their original assembled (provider) order: filtering the output at any score
value and erasing the assigned ranks gives exactly the corresponding filtered
slice of the assembled list. -/
theorem refresh_ranking_invariants (outcomes : List ProviderOutcome)
    (l out : List Asset)
    (hl : assembleAll (chainFetch (outcomes.map runProvider)) = Except.ok l)
    (hout : get_data_from_providers outcomes = Except.ok out)
    (hne : out ≠ []) :
    out.map Asset.rank = List.range' 1 out.length
    ∧ out.Pairwise (fun a b => b.pain_score ≤ a.pain_score)
    ∧ ∀ k : ℤ, (out.filter (fun a => decide (a.pain_score = k))).map clearRank
        = l.filter (fun a => decide (a.pain_score = k)) := by
  have hout' : out = rankAssets l := by
    unfold get_data_from_providers at hout
    by_cases hemp : (chainFetch (outcomes.map runProvider)).isEmpty
    · rw [if_pos hemp] at hout
      cases hout
      exact absurd rfl hne
    · rw [if_neg hemp, hl] at hout
      cases hout
      rfl
  subst hout'
  refine ⟨?_, rankAssets_pairwise l, ?_⟩
  · unfold rankAssets
    rw [assignRanks_map_rank, assignRanks_length]
  · intro k
    unfold rankAssets
    rw [filter_pain_map_clearRank, assignRanks_map_clearRank]
    have hz : ∀ a ∈ l.mergeSort painGe, clearRank a = a := by
      intro a ha
      have hmem : a ∈ l := (List.mergeSort_perm l painGe).subset ha
      have hr0 : a.rank = 0 := assembleAll_rank_zero hl a hmem
      cases a
      simp_all [clearRank]
    rw [List.map_congr_left hz]
    simpa using mergeSort_filter_pain l k

/-- Record with the spec's slug example: name "Bitcoin Cash", symbol "BCH". -/
def w6rec : RawRecord :=
  { name := some "Bitcoin Cash", symbol := some "BCH", logo_url := some "logo" }

/-- The assembled form of `w6rec`: note the id slug "bitcoin-cash-bch". -/
def w6asset : Asset :=
  { rank := 0, id := "bitcoin-cash-bch", name := "Bitcoin Cash", symbol := "BCH",
    price := 0, percent_from_ath := 0, pain_score := 0, logo_url := "logo" }

theorem assemble_w6 : assemble w6rec = Except.ok w6asset := by
  rw [assemble_ok_of_keys w6rec "Bitcoin Cash" "BCH" "logo" rfl rfl rfl]
  rw [show w6rec.quote_usd = none from rfl]
  simp [Option.getD, calculate_pain_score_empty, w6asset]
  decide

/-- Witness for C6 at a concrete single-record refresh. -/
theorem refresh_ranking_invariants_witness :
    ([{ w6asset with rank := 1 }] : List Asset).map Asset.rank
        = List.range' 1 ([{ w6asset with rank := 1 }] : List Asset).length
    ∧ ([{ w6asset with rank := 1 }] : List Asset).Pairwise
        (fun a b => b.pain_score ≤ a.pain_score)
    ∧ ∀ k : ℤ, (([{ w6asset with rank := 1 }] : List Asset).filter
          (fun a => decide (a.pain_score = k))).map clearRank
        = ([w6asset] : List Asset).filter (fun a => decide (a.pain_score = k)) :=
  refresh_ranking_invariants [ProviderOutcome.ok [w6rec]] [w6asset]
    [{ w6asset with rank := 1 }]
    (by simp [chainFetch, runProvider, assembleAll, assemble_w6])
    (get_data_chain_single _ w6rec w6asset rfl assemble_w6)
    (by simp)

/-! Cache behaviour -/

/-- C4 (amended): when the cache holds a non-empty list and the call is within
the TTL, get() returns the stored list with the state — content and timestamp —
unchanged and makes zero outbound provider calls.  (The restriction to a
non-empty stored list is forced: an empty stored list is falsy and triggers a
refresh instead.) -/
theorem fresh_nonempty_cache_hit (outcomes : List ProviderOutcome)
    (s : CacheState) (l : List Asset) (now : ℚ) (hl : s.cached_data = some l)
    (hne : l ≠ []) (hfresh : now - s.last_cache_time ≤ CACHE_DURATION_SECONDS) :
    get_leaderboard outcomes now s = (Except.ok l, s, 0) := by
  unfold get_leaderboard
  rw [if_neg]
  · rw [hl]
    rfl
  · refine not_or.mpr ⟨?_, not_lt.mpr hfresh⟩
    rw [hl]
    simp [cacheFalsy, hne]

/-- Non-empty cached asset used by concrete cache scenarios. -/
def wAsset : Asset :=
  { rank := 1, id := "bitcoin-btc", name := "Bitcoin", symbol := "BTC",
    price := 1, percent_from_ath := 0, pain_score := 0, logo_url := "u" }

/-- Witness for C4 (amended), exercising the boundary age = TTL exactly. -/
theorem fresh_nonempty_cache_hit_witness :
    get_leaderboard [ProviderOutcome.failure] 1000 ⟨some [wAsset], 100⟩
      = (Except.ok [wAsset], ⟨some [wAsset], 100⟩, 0) :=
  fresh_nonempty_cache_hit [ProviderOutcome.failure] ⟨some [wAsset], 100⟩
    [wAsset] 1000 rfl (by simp) (by norm_num [CACHE_DURATION_SECONDS])

/-- C4 counterexample: a call within the TTL on a cache whose stored list is
empty makes a provider call (the empty list is falsy, so the cache is treated
as absent), refuting the universal zero-extra-calls claim. -/
theorem fresh_cache_empty_list_counterexample :
    ((10 : ℚ) - 5 ≤ CACHE_DURATION_SECONDS)
    ∧ (get_leaderboard [ProviderOutcome.failure] 10 ⟨some [], 5⟩).2.2 ≠ 0 := by
  constructor
  · norm_num [CACHE_DURATION_SECONDS]
  · unfold get_leaderboard
    rw [if_pos (Or.inl (by simp [cacheFalsy]))]
    rw [show get_data_from_providers [ProviderOutcome.failure] = Except.ok []
      from rfl]
    simp [chainCalls, runProvider]

/-- C1: a refresh that finds no data does store an empty list with a fresh
timestamp and return it — that half of the claim holds — but a second call one
second later, well within the TTL, invokes both providers again: the empty
cached list is falsy in `not cached_data`, so it is treated as an absent cache
and the stored timestamp is never consulted. -/
theorem empty_result_refetch_bug :
    get_leaderboard [ProviderOutcome.failure, ProviderOutcome.ok []] 1000
        initialCacheState
      = (Except.ok [], ⟨some [], 1000⟩, 2)
    ∧ ((1001 : ℚ) - 1000 ≤ CACHE_DURATION_SECONDS)
    ∧ (get_leaderboard [ProviderOutcome.failure, ProviderOutcome.ok []] 1001
        ⟨some [], 1000⟩).2.2 = 2 := by
  refine ⟨?_, by norm_num [CACHE_DURATION_SECONDS], ?_⟩
  · unfold get_leaderboard
    rw [if_pos (Or.inl (by simp [initialCacheState, cacheFalsy]))]
    rfl
  · unfold get_leaderboard
    rw [if_pos (Or.inl (by simp [cacheFalsy]))]
    rfl

end PainIndex
